import Mathlib

/-!
# Proxy-Checker: a shallow embedding of the verification engine

This file embeds the core of the Proxy-Checker repository in Lean 4 and
proves properties of the embedding.

Embedded source files:
* `src/main/checker.ts` — the `ProxyChecker` class: the worker-pool run
  loop (`checkAll` / `processNext`), the single-endpoint probe
  (`checkProxy`), the anonymity classifier (`checkAnonymity`), the
  bounded log (`addLog`), progress snapshots (`emitProgress`) and
  self-address detection (`detectMyIp`).
* `src/main/parsers/index.ts` — source aggregation (`parseFromSources`)
  with its per-source parsers and the `(ip, port)` deduplication.

Network I/O (axios requests) is modeled by explicit oracles: a probe
either yields a response (HTTP status and elapsed milliseconds) or an
exception; a source fetch either yields a body or an exception.
JavaScript strings are modeled by `String`, with `toLowerCase` /
`includes` modeled for the ASCII header material the checker handles.
The asynchronous worker pool is modeled as a small-step transition
relation on the run state: JavaScript is single-threaded, so every
synchronous segment between two `await` points is one atomic step.
-/

/-! ## JavaScript string primitives -/

/-- JS `hay.includes(pat)`: `pat` occurs contiguously inside `hay`. -/
def strIncludes (hay pat : String) : Bool := decide (pat.data <:+: hay.data)

/-- JS `s.toLowerCase()`, for the ASCII material handled by the checker
(header names, addresses, URLs). -/
def lowerStr (s : String) : String := String.mk (s.data.map Char.toLower)

/-- JS `s.toUpperCase()`, for the ASCII transport-kind names. -/
def upperStr (s : String) : String := String.mk (s.data.map Char.toUpper)

/-- JS `parseInt(s)` restricted to the checker's use on trimmed cell
text: the longest leading run of decimal digits, `none` when there is no
digit (JS `NaN`). -/
def parseIntJs (s : String) : Option Nat :=
  let digits := s.data.takeWhile Char.isDigit
  if digits.isEmpty then none
  else some (digits.foldl (fun acc c => acc * 10 + (c.toNat - 48)) 0)

/-- JS truthiness of a `parseInt` result: `NaN` and `0` are falsy. -/
def jsTruthyNum : Option Nat → Bool
  | some n => n != 0
  | none => false

theorem strIncludes_iff (hay pat : String) :
    strIncludes hay pat = true ↔ pat.data <:+: hay.data := by
  simp [strIncludes]

theorem lowerStr_append (a b : String) :
    lowerStr (a ++ b) = lowerStr a ++ lowerStr b := by
  simp only [lowerStr, String.data_append, List.map_append]
  rfl

/-! ## Anonymity classifier (`checkAnonymity`, checker.ts lines 235–273)

The probe target (`httpbin.org/headers`) echoes the request headers as a
JSON object; the code serializes that object with `JSON.stringify` and
lowercases it.  Headers are modeled as an association list of
(name, value) pairs; the serialization is modeled for names and values
that need no JSON escaping (the case for HTTP header material). -/

/-- One `"name":"value"` JSON field; fields joined by `,` as
`JSON.stringify` does. -/
def serializeFields : List (String × String) → String
  | [] => ""
  | kv :: rest =>
    "\"" ++ kv.1 ++ "\":\"" ++ kv.2 ++ "\"" ++
      (if rest.isEmpty then "" else "," ++ serializeFields rest)

/-- `JSON.stringify(headers)` for a header object. -/
def serializeHeaders (hs : List (String × String)) : String :=
  "\x7b" ++ serializeFields hs ++ "\x7d"

/-- The fixed list of proxy-revealing header names
(checker.ts lines 252–259). -/
def proxyHeadersList : List String :=
  ["x-forwarded-for", "x-real-ip", "via", "x-proxy", "forwarded",
   "proxy-connection"]

/-- JS `headers[k]` truthiness: the object has key `k` (exact match) and
its value is a nonempty string. -/
def lookupTruthy (hs : List (String × String)) (k : String) : Bool :=
  match hs.find? (fun kv => kv.1 == k) with
  | some kv => kv.2 != ""
  | none => false

/-- The classification at the heart of `checkAnonymity`
(checker.ts lines 243–269), as a pure function of the verifier's own
address `myIp` and the echoed headers:
1. `myIp` nonempty and contained (lowercased) in the serialized
   headers → `transparent`;
2. else, for some proxy-revealing name `h`: `headers[h]` truthy, or
   `headers[h.toLowerCase()]` truthy, or `h` contained in the serialized
   lowercased headers → `anonymous`;
3. else `elite`. -/
def classifyAnonymity (myIp : String) (hs : List (String × String)) : String :=
  let headerStr := lowerStr (serializeHeaders hs)
  if myIp != "" && strIncludes headerStr (lowerStr myIp) then "transparent"
  else if proxyHeadersList.any (fun h =>
      lookupTruthy hs h || lookupTruthy hs (lowerStr h) ||
        strIncludes headerStr h) then "anonymous"
  else "elite"

/-- Outcome of the extra probe issued by `checkAnonymity`: the echoed
header object, or an exception. -/
inductive AnonProbeResult
  | ok (headers : List (String × String))
  | err
deriving DecidableEq

/-- `checkAnonymity` (checker.ts lines 235–273): probe the echo
endpoint; on any exception the grade is `unknown`, otherwise classify
the echoed headers. -/
def checkAnonymityProbe (myIp : String) (r : AnonProbeResult) : String :=
  match r with
  | .ok hs => classifyAnonymity myIp hs
  | .err => "unknown"

/-! ### The claim C2 reading of rule 2, and the code's actual rule 2

Claim C2 states rule 2 as: some proxy-revealing *header name is present
among the header names*.  The code instead tests whether the name occurs
as a *substring of the whole serialized header object* (names and
values).  `claimClassify` renders the claim's words; `amendedClassify`
renders the substring semantics. -/

/-- Anonymity classification as claim C2 words it: rule 2 fires exactly
when one of the six names is present among the header names
(case-insensitively). -/
def claimClassify (myIp : String) (hs : List (String × String)) : String :=
  let headerStr := lowerStr (serializeHeaders hs)
  if strIncludes headerStr (lowerStr myIp) then "transparent"
  else if proxyHeadersList.any (fun h =>
      hs.any (fun kv => lowerStr kv.1 == h)) then "anonymous"
  else "elite"

/-- Anonymity classification with rule 2 amended to the code's
semantics: one of the six names occurs as a substring of the serialized
lowercased headers (in particular whenever a header with that name is
present). -/
def amendedClassify (myIp : String) (hs : List (String × String)) : String :=
  let headerStr := lowerStr (serializeHeaders hs)
  if strIncludes headerStr (lowerStr myIp) then "transparent"
  else if proxyHeadersList.any (fun h => strIncludes headerStr h)
    then "anonymous"
  else "elite"

/-! ### Facts about the classifier -/

theorem infix_serializeFields_of_mem {kv : String × String}
    {hs : List (String × String)} (hmem : kv ∈ hs) :
    kv.1.data <:+: (serializeFields hs).data := by
  induction hs with
  | nil => cases hmem
  | cons a rest ih =>
    rcases List.mem_cons.mp hmem with h | h
    · subst h
      refine ⟨"\"".data,
        ("\":\"" ++ kv.2 ++ "\"" ++
          (if rest.isEmpty then "" else "," ++ serializeFields rest)).data, ?_⟩
      simp [serializeFields, String.data_append]
    · have hrest := ih h
      obtain ⟨s, t, hst⟩ := hrest
      have hne : rest.isEmpty = false := by
        cases rest with
        | nil => cases h
        | cons b bs => rfl
      refine ⟨("\"" ++ a.1 ++ "\":\"" ++ a.2 ++ "\"" ++ ",").data ++ s, t, ?_⟩
      simp only [serializeFields, hne, if_neg Bool.false_ne_true,
        String.data_append, List.append_assoc]
      simp only [← List.append_assoc, ← String.data_append]
      simp [← hst]

theorem infix_serializeHeaders_of_mem {kv : String × String}
    {hs : List (String × String)} (hmem : kv ∈ hs) :
    kv.1.data <:+: (serializeHeaders hs).data := by
  obtain ⟨s, t, hst⟩ := infix_serializeFields_of_mem hmem
  exact ⟨"\x7b".data ++ s, t ++ "\x7d".data, by
    simp [serializeHeaders, String.data_append, ← hst]⟩

theorem lookupTruthy_occurs {hs : List (String × String)} {k : String}
    (h : lookupTruthy hs k = true) : k.data <:+: (serializeHeaders hs).data := by
  unfold lookupTruthy at h
  cases hfind : hs.find? (fun kv => kv.1 == k) with
  | none => rw [hfind] at h; cases h
  | some kv =>
    have hk : kv.1 = k := by
      have := List.find?_some hfind
      simpa using this
    have hmem := List.mem_of_find?_eq_some hfind
    exact hk ▸ infix_serializeHeaders_of_mem hmem

theorem lookup_implies_includes {hs : List (String × String)} {k : String}
    (hlow : lowerStr k = k) (h : lookupTruthy hs k = true) :
    strIncludes (lowerStr (serializeHeaders hs)) k = true := by
  rw [strIncludes_iff]
  have hmap := (lookupTruthy_occurs h).map Char.toLower
  have hk : k.data.map Char.toLower = k.data := congrArg String.data hlow
  rw [hk] at hmap
  exact hmap

theorem rule2_any_eq (hs : List (String × String)) :
    (proxyHeadersList.any fun h =>
        lookupTruthy hs h || lookupTruthy hs (lowerStr h) ||
          strIncludes (lowerStr (serializeHeaders hs)) h)
      = (proxyHeadersList.any fun h =>
          strIncludes (lowerStr (serializeHeaders hs)) h) := by
  rw [Bool.eq_iff_iff, List.any_eq_true, List.any_eq_true]
  have hlowAll : ∀ x ∈ proxyHeadersList, lowerStr x = x := by decide
  constructor
  · rintro ⟨h, hmem, hp⟩
    refine ⟨h, hmem, ?_⟩
    have hlow := hlowAll h hmem
    simp only [Bool.or_eq_true] at hp
    rcases hp with (ha | hb) | hc
    · exact lookup_implies_includes hlow ha
    · rw [hlow] at hb
      exact lookup_implies_includes hlow hb
    · exact hc
  · rintro ⟨h, hmem, hp⟩
    exact ⟨h, hmem, by simp [hp]⟩

theorem classify_eq_amended {myIp : String} (hs : List (String × String))
    (hne : myIp ≠ "") : classifyAnonymity myIp hs = amendedClassify myIp hs := by
  have h1 : (myIp != "") = true := by simpa using hne
  simp only [classifyAnonymity, amendedClassify, h1, Bool.true_and,
    rule2_any_eq hs]

/-- Claim C2 (counterexample): the claim says a probe-header object whose
*names* contain none of the six proxy-revealing names (and which does not
contain the self address) is graded `elite`; the code instead searches
the six names as substrings of the whole serialized object, so a header
*value* containing `via` already yields `anonymous`.  Concretely, for
selfAddress `203.0.113.9` and headers `Accept: via proxy` the code
returns `anonymous` while the claim requires `elite`. -/
theorem c2_counterexample :
    classifyAnonymity "203.0.113.9" [("Accept", "via proxy")] = "anonymous" ∧
    claimClassify "203.0.113.9" [("Accept", "via proxy")] = "elite" ∧
    classifyAnonymity "203.0.113.9" [("Accept", "via proxy")] ≠
      claimClassify "203.0.113.9" [("Accept", "via proxy")] :=
  ⟨by decide, by decide, by decide⟩

/-- Claim C2 (amended): anonymity classification is a pure function of
(selfAddress, probeHeaders), evaluated first-match-wins: if the nonempty
selfAddress appears (case-insensitively) anywhere in the serialized
headers the grade is `transparent`; else if any of the six
proxy-revealing names occurs as a substring of the serialized lowercased
headers (in particular whenever such a header name is present) the grade
is `anonymous`; else `elite`.  In particular selfAddress `203.0.113.9`
with headers `Via: 1.1 proxy` (not containing `203.0.113.9`) yields
`anonymous`. -/
theorem c2_anonymity_classification :
    (∀ (myIp : String) (hs : List (String × String)), myIp ≠ "" →
      classifyAnonymity myIp hs = amendedClassify myIp hs) ∧
    classifyAnonymity "203.0.113.9" [("Via", "1.1 proxy")] = "anonymous" ∧
    amendedClassify "203.0.113.9" [("Via", "1.1 proxy")] = "anonymous" :=
  ⟨fun _ hs hne => classify_eq_amended hs hne, by decide, by decide⟩

/-- Witness for `c2_anonymity_classification` at a concrete input. -/
theorem c2_anonymity_classification_witness :
    ("203.0.113.9" : String) ≠ "" ∧
    classifyAnonymity "203.0.113.9" [("Host", "httpbin.org")] =
      amendedClassify "203.0.113.9" [("Host", "httpbin.org")] :=
  ⟨by decide, c2_anonymity_classification.1 "203.0.113.9"
    [("Host", "httpbin.org")] (by decide)⟩

/-! ## Source aggregation (`src/main/parsers/index.ts`)

Each parser's network fetch is an oracle value: `none` models an axios
exception (every parser catches its own exceptions and returns what it
has collected, which at that point is the empty list), `some` carries
the already-shaped response body.  For the HTML sources the oracle
yields the data-table rows as lists of cell texts (the result of the
cheerio traversal); for the text APIs the raw body; for the JSON API the
decoded item list. -/

/-- JS `s.trim()`. -/
def trimJs (s : String) : String :=
  String.mk (((s.data.dropWhile Char.isWhitespace).reverse.dropWhile
    Char.isWhitespace).reverse)

/-- Helper for `splitOnChar`. -/
def splitOnCharAux (sep : Char) : List Char → List Char → List String
  | [], acc => [String.mk acc.reverse]
  | c :: rest, acc =>
    if c == sep then String.mk acc.reverse :: splitOnCharAux sep rest []
    else splitOnCharAux sep rest (c :: acc)

/-- JS `s.split(sep)` for a one-character separator (the separators the
parsers use are `:` and newline). -/
def splitOnChar (s : String) (sep : Char) : List String :=
  splitOnCharAux sep s.data []

/-- A parsed proxy record (`ParsedProxy`, parsers/index.ts lines 24–32). -/
structure ParsedProxy where
  ip : String
  port : Nat
  type : Option String := none
  country : Option String := none
  anonymity : Option String := none
deriving DecidableEq

/-- A proxy source (`ProxySource`, parsers/index.ts lines 18–21). -/
structure ProxySource where
  name : String
  url : String
deriving DecidableEq

/-- Parse filters (`ParseFilters`, parsers/index.ts lines 35–38). -/
structure ParseFilters where
  types : Option (List String) := none
  countries : Option (List String) := none
deriving DecidableEq

/-- One `onProgress` callback payload (parsers/index.ts line 41). -/
structure SourceProgress where
  source : String
  count : Nat
  status : String
deriving DecidableEq

/-- One item of the geonode JSON response, already decoded (the fields
`parseGeoNode` reads; its numeric `port` is the value of
`parseInt(item.port)` on the API's digit-string port). -/
structure GeoItem where
  ip : String
  port : Nat
  protocols : List String := []
  country : Option String := none
  anonymityLevel : Option String := none
deriving DecidableEq

/-- The network, as the parsers see it: each URL either yields a shaped
response or an exception (`none`). -/
structure FetchOracle where
  html : String → Option (List (List String))
  text : String → Option String
  geo : String → Option (List GeoItem)

/-- One table row of free-proxy-list.net / sslproxies.org
(parsers/index.ts lines 79–96): needs at least 7 cells, a nonempty IP
and a truthy port; the 5th cell is the anonymity label (substring
match), the 7th the HTTPS flag. -/
def parseRowFPL (cells : List String) : Option ParsedProxy :=
  if 7 ≤ cells.length then
    let ip := trimJs (cells.getD 0 "")
    let port := parseIntJs (trimJs (cells.getD 1 ""))
    let countryCode := trimJs (cells.getD 2 "")
    let anonymity := lowerStr (trimJs (cells.getD 4 ""))
    let https := lowerStr (trimJs (cells.getD 6 "")) == "yes"
    if ip != "" && jsTruthyNum port then
      some { ip := ip, port := port.getD 0,
             type := some (if https then "HTTPS" else "HTTP"),
             country := some countryCode,
             anonymity := some (if strIncludes anonymity "elite" then "elite"
               else if strIncludes anonymity "anonymous" then "anonymous"
               else "transparent") }
    else none
  else none

/-- `parseFreeProxyList` (parsers/index.ts lines 70–104): on a fetch or
parse exception the catch swallows the error and the collected list —
empty at that point — is returned. -/
def parseFreeProxyList (fetched : Option (List (List String))) :
    List ParsedProxy :=
  match fetched with
  | none => []
  | some rows => rows.filterMap parseRowFPL

/-- One `IP:PORT` line of a plain-text listing
(parsers/index.ts lines 120–131 and 154–165). -/
def parseTextLine (ty : String) (line : String) : Option ParsedProxy :=
  let parts := splitOnChar (trimJs line) ':'
  let ip := parts.getD 0 ""
  let port := parseIntJs (parts.getD 1 "")
  if ip != "" && jsTruthyNum port then
    some { ip := ip, port := port.getD 0, type := some (upperStr ty) }
  else none

/-- The proxy-list.download per-type API URL (parsers/index.ts line 116). -/
def downloadUrl (ty : String) : String :=
  "https://www.proxy-list.download/api/v1/get?type=" ++ ty

/-- `parseProxyListDownload` (parsers/index.ts lines 110–138): one fetch
per requested transport kind; a per-type exception is caught and that
type contributes nothing, the remaining types still run. -/
def parseProxyListDownload (fetchText : String → Option String)
    (filters : Option ParseFilters) : List ParsedProxy :=
  let types := (filters.bind (fun f => f.types)).getD
    ["http", "https", "socks4", "socks5"]
  (types.map (fun ty =>
    match fetchText (downloadUrl ty) with
    | none => []
    | some body =>
      (splitOnChar body '\n').filterMap (parseTextLine ty))).flatten

/-- The proxyscrape per-type API URL (parsers/index.ts line 150). -/
def scrapeUrl (ty : String) : String :=
  "https://api.proxyscrape.com/v2/?request=displayproxies&protocol=" ++
    ty ++ "&timeout=10000&country=all"

/-- `parseProxyScrape` (parsers/index.ts lines 144–172): same shape as
`parseProxyListDownload` with its own URL and default type list. -/
def parseProxyScrape (fetchText : String → Option String)
    (filters : Option ParseFilters) : List ParsedProxy :=
  let types := (filters.bind (fun f => f.types)).getD
    ["http", "socks4", "socks5"]
  (types.map (fun ty =>
    match fetchText (scrapeUrl ty) with
    | none => []
    | some body =>
      (splitOnChar body '\n').filterMap (parseTextLine ty))).flatten

/-- The geonode API URL with the requested protocols
(parsers/index.ts lines 182–183). -/
def geoUrl (filters : Option ParseFilters) : String :=
  let protocols := ((filters.bind (fun f => f.types)).map
    (fun ts => ts.map lowerStr)).getD ["http", "https", "socks4", "socks5"]
  "https://proxylist.geonode.com/api/proxy-list?limit=500&page=1&sort_by=lastChecked&sort_type=desc&protocols=" ++
    String.intercalate "," protocols

/-- `parseGeoNode` (parsers/index.ts lines 178–204): maps the decoded
item list; `item.protocols?.[0] || 'HTTP'` falls back to `HTTP` for a
missing or empty first protocol. -/
def parseGeoNode (fetched : Option (List GeoItem)) : List ParsedProxy :=
  match fetched with
  | none => []
  | some items => items.map (fun item =>
      { ip := item.ip, port := item.port,
        type := some (upperStr
          (let p := item.protocols.getD 0 ""
           if p == "" then "HTTP" else p)),
        country := item.country,
        anonymity := item.anonymityLevel.map lowerStr })

/-- The post-parser type filter (parsers/index.ts lines 237–241): only
applied when a nonempty type list was requested; case-insensitive match
on the record's type, records without a type never match. -/
def filterByTypes (filters : Option ParseFilters) (ps : List ParsedProxy) :
    List ParsedProxy :=
  match filters with
  | some f =>
    match f.types with
    | some ts =>
      if 0 < ts.length then
        ps.filter (fun p => ts.any (fun t =>
          match p.type with
          | some pt => upperStr t == upperStr pt
          | none => false))
      else ps
    | none => ps
  | none => ps

/-- The per-source parser dispatch on the source URL
(parsers/index.ts lines 226–234). -/
def parseSourceDispatch (oracle : FetchOracle) (filters : Option ParseFilters)
    (source : ProxySource) : List ParsedProxy :=
  if strIncludes source.url "free-proxy-list.net" ||
      strIncludes source.url "sslproxies.org" then
    parseFreeProxyList (oracle.html source.url)
  else if strIncludes source.url "proxy-list.download" then
    parseProxyListDownload oracle.text filters
  else if strIncludes source.url "proxyscrape.com" then
    parseProxyScrape oracle.text filters
  else if strIncludes source.url "geonode.com" then
    parseGeoNode (oracle.geo (geoUrl filters))
  else []

/-- What one source adds to the combined list: its parsed records after
the type filter (parsers/index.ts lines 222–243). -/
def srcContribution (oracle : FetchOracle) (filters : Option ParseFilters)
    (source : ProxySource) : List ParsedProxy :=
  filterByTypes filters (parseSourceDispatch oracle filters source)

/-- The two progress events one source emits
(parsers/index.ts lines 220 and 244): `parsing` before, `done` with the
contributed count after.  The `status: error` event of the outer catch
(line 246) is unreachable here because every parser and the type filter
are total: each parser catches its own exceptions internally, exactly as
in the source. -/
def srcEvents (oracle : FetchOracle) (filters : Option ParseFilters)
    (source : ProxySource) : List SourceProgress :=
  [{ source := source.name, count := 0, status := "parsing" },
   { source := source.name,
     count := (srcContribution oracle filters source).length,
     status := "done" }]

/-- The `${proxy.ip}:${proxy.port}` dedup key (parsers/index.ts line 253). -/
def proxyKey (p : ParsedProxy) : String := p.ip ++ ":" ++ toString p.port

/-- The dedup loop of `parseFromSources` (lines 251–257): first
occurrence of a key is kept, in encounter order, later ones dropped.
`seen` is the key set of the `Map` built so far. -/
def dedupKeyed : List ParsedProxy → List String → List ParsedProxy
  | [], _ => []
  | p :: rest, seen =>
    if proxyKey p ∈ seen then dedupKeyed rest seen
    else p :: dedupKeyed rest (proxyKey p :: seen)

/-- Deduplication by `(ip, port)` identity (parsers/index.ts 250–259). -/
def dedupProxies (l : List ParsedProxy) : List ParsedProxy := dedupKeyed l []

/-- One iteration of the source loop of `parseFromSources`
(lines 219–248): emit `parsing`, run the dispatched parser, apply the
type filter, append, emit `done` with the count. -/
def aggStep (oracle : FetchOracle) (filters : Option ParseFilters)
    (acc : List ParsedProxy × List SourceProgress) (source : ProxySource) :
    List ParsedProxy × List SourceProgress :=
  (acc.1 ++ srcContribution oracle filters source,
   acc.2 ++ srcEvents oracle filters source)

/-- `parseFromSources` (parsers/index.ts lines 210–260): loop over the
sources, then dedup the combined list.  The returned pair is the
deduplicated candidate list and the trace of `onProgress` events. -/
def parseFromSources (sources : List ProxySource)
    (filters : Option ParseFilters) (oracle : FetchOracle) :
    List ParsedProxy × List SourceProgress :=
  let folded := sources.foldl (aggStep oracle filters) ([], [])
  (dedupProxies folded.1, folded.2)

/-! ### Facts about deduplication and the source loop -/

/-- The key set of the dedup `Map` after processing a list. -/
def keysAfter : List ParsedProxy → List String → List String
  | [], seen => seen
  | p :: rest, seen =>
    if proxyKey p ∈ seen then keysAfter rest seen
    else keysAfter rest (proxyKey p :: seen)

theorem mem_keysAfter_of_seen :
    ∀ (l : List ParsedProxy) (seen : List String) (k : String),
    k ∈ seen → k ∈ keysAfter l seen := by
  intro l
  induction l with
  | nil => intro _ k hk; exact hk
  | cons p rest ih =>
    intro seen k hk
    by_cases hp : proxyKey p ∈ seen
    · rw [keysAfter, if_pos hp]; exact ih seen k hk
    · rw [keysAfter, if_neg hp]
      exact ih _ k (List.mem_cons_of_mem _ hk)

theorem mem_keysAfter_of_mem :
    ∀ (l : List ParsedProxy) (seen : List String) (x : ParsedProxy),
    x ∈ l → proxyKey x ∈ keysAfter l seen := by
  intro l
  induction l with
  | nil => intro _ x hx; cases hx
  | cons p rest ih =>
    intro seen x hx
    rcases List.mem_cons.mp hx with h | h
    · subst h
      by_cases hp : proxyKey x ∈ seen
      · rw [keysAfter, if_pos hp]; exact mem_keysAfter_of_seen _ _ _ hp
      · rw [keysAfter, if_neg hp]
        exact mem_keysAfter_of_seen _ _ _ (List.mem_cons_self _ _)
    · by_cases hp : proxyKey p ∈ seen
      · rw [keysAfter, if_pos hp]; exact ih _ _ h
      · rw [keysAfter, if_neg hp]; exact ih _ _ h

theorem dedupKeyed_append :
    ∀ (l₁ l₂ : List ParsedProxy) (seen : List String),
    dedupKeyed (l₁ ++ l₂) seen =
      dedupKeyed l₁ seen ++ dedupKeyed l₂ (keysAfter l₁ seen) := by
  intro l₁
  induction l₁ with
  | nil => intro l₂ seen; rfl
  | cons p rest ih =>
    intro l₂ seen
    by_cases hp : proxyKey p ∈ seen
    · rw [List.cons_append, dedupKeyed, if_pos hp, dedupKeyed, if_pos hp,
        keysAfter, if_pos hp, ih]
    · rw [List.cons_append, dedupKeyed, if_neg hp, dedupKeyed, if_neg hp,
        keysAfter, if_neg hp, ih, List.cons_append]

theorem dedupKeyed_eq_nil :
    ∀ (l : List ParsedProxy) (seen : List String),
    (∀ x ∈ l, proxyKey x ∈ seen) → dedupKeyed l seen = [] := by
  intro l
  induction l with
  | nil => intro _ _; rfl
  | cons p rest ih =>
    intro seen h
    rw [dedupKeyed, if_pos (h p (List.mem_cons_self p rest))]
    exact ih seen (fun x hx => h x (List.mem_cons_of_mem _ hx))

theorem dedup_append_self (l : List ParsedProxy) :
    dedupProxies (l ++ l) = dedupProxies l := by
  unfold dedupProxies
  rw [dedupKeyed_append,
    dedupKeyed_eq_nil l (keysAfter l []) (fun x hx => mem_keysAfter_of_mem l [] x hx),
    List.append_nil]

theorem dedupKeyed_sublist :
    ∀ (l : List ParsedProxy) (seen : List String),
    List.Sublist (dedupKeyed l seen) l := by
  intro l
  induction l with
  | nil => intro _; exact List.Sublist.refl _
  | cons p rest ih =>
    intro seen
    by_cases hp : proxyKey p ∈ seen
    · rw [dedupKeyed, if_pos hp]
      exact (ih seen).cons p
    · rw [dedupKeyed, if_neg hp]
      exact (ih _).cons₂ p

theorem key_not_seen_of_mem_dedupKeyed :
    ∀ (l : List ParsedProxy) (seen : List String) (y : ParsedProxy),
    y ∈ dedupKeyed l seen → proxyKey y ∉ seen := by
  intro l
  induction l with
  | nil => intro _ y hy; cases hy
  | cons p rest ih =>
    intro seen y hy
    by_cases hp : proxyKey p ∈ seen
    · rw [dedupKeyed, if_pos hp] at hy
      exact ih seen y hy
    · rw [dedupKeyed, if_neg hp] at hy
      rcases List.mem_cons.mp hy with h | h
      · subst h; exact hp
      · intro hseen
        exact ih _ y h (List.mem_cons_of_mem _ hseen)

theorem dedupKeyed_keys_nodup :
    ∀ (l : List ParsedProxy) (seen : List String),
    ((dedupKeyed l seen).map proxyKey).Nodup := by
  intro l
  induction l with
  | nil => intro _; exact List.nodup_nil
  | cons p rest ih =>
    intro seen
    by_cases hp : proxyKey p ∈ seen
    · rw [dedupKeyed, if_pos hp]; exact ih seen
    · rw [dedupKeyed, if_neg hp, List.map_cons, List.nodup_cons]
      refine ⟨?_, ih _⟩
      intro hmem
      rcases List.mem_map.mp hmem with ⟨y, hy, hkey⟩
      refine key_not_seen_of_mem_dedupKeyed _ _ y hy ?_
      rw [hkey]
      exact List.mem_cons_self _ _

theorem dedupKeyed_covers :
    ∀ (l : List ParsedProxy) (seen : List String) (x : ParsedProxy),
    x ∈ l → proxyKey x ∉ seen →
    ∃ y ∈ dedupKeyed l seen, proxyKey y = proxyKey x := by
  intro l
  induction l with
  | nil => intro _ x hx; cases hx
  | cons p rest ih =>
    intro seen x hx hnot
    by_cases hp : proxyKey p ∈ seen
    · rw [dedupKeyed, if_pos hp]
      rcases List.mem_cons.mp hx with h | h
      · subst h; exact absurd hp hnot
      · exact ih seen x h hnot
    · rw [dedupKeyed, if_neg hp]
      by_cases hkey : proxyKey x = proxyKey p
      · exact ⟨p, List.mem_cons_self _ _, hkey.symm⟩
      · rcases List.mem_cons.mp hx with h | h
        · subst h; exact absurd rfl hkey
        · obtain ⟨y, hy, hk⟩ := ih (proxyKey p :: seen) x h (by
            intro hmem
            rcases List.mem_cons.mp hmem with h2 | h2
            · exact hkey h2
            · exact hnot h2)
          exact ⟨y, List.mem_cons_of_mem _ hy, hk⟩

theorem dedupKeyed_first_seen :
    ∀ (l : List ParsedProxy) (seen : List String) (y : ParsedProxy),
    y ∈ dedupKeyed l seen →
    l.find? (fun z => proxyKey z == proxyKey y) = some y := by
  intro l
  induction l with
  | nil => intro _ y hy; cases hy
  | cons p rest ih =>
    intro seen y hy
    by_cases hp : proxyKey p ∈ seen
    · rw [dedupKeyed, if_pos hp] at hy
      have hne : (proxyKey p == proxyKey y) = false := by
        simp only [beq_eq_false_iff_ne, ne_eq]
        intro h
        exact key_not_seen_of_mem_dedupKeyed _ _ y hy (h ▸ hp)
      simp only [List.find?_cons, hne]
      exact ih seen y hy
    · rw [dedupKeyed, if_neg hp] at hy
      rcases List.mem_cons.mp hy with h | h
      · subst h
        have heq : (proxyKey y == proxyKey y) = true := by simp
        simp only [List.find?_cons, heq]
      · have hne : (proxyKey p == proxyKey y) = false := by
          simp only [beq_eq_false_iff_ne, ne_eq]
          intro h2
          refine key_not_seen_of_mem_dedupKeyed _ _ y h ?_
          rw [← h2]
          exact List.mem_cons_self _ _
        simp only [List.find?_cons, hne]
        exact ih _ y h

/-- List concatenation of per-element contributions. -/
def concatMapL {α β : Type} (f : α → List β) : List α → List β
  | [] => []
  | a :: l => f a ++ concatMapL f l

theorem concatMapL_append {α β : Type} (f : α → List β) :
    ∀ l₁ l₂ : List α,
    concatMapL f (l₁ ++ l₂) = concatMapL f l₁ ++ concatMapL f l₂ := by
  intro l₁
  induction l₁ with
  | nil => intro l₂; rfl
  | cons a l ih =>
    intro l₂
    rw [List.cons_append, concatMapL, concatMapL, ih, List.append_assoc]

theorem foldl_aggStep (oracle : FetchOracle) (filters : Option ParseFilters) :
    ∀ (sources : List ProxySource) (acc : List ParsedProxy × List SourceProgress),
    sources.foldl (aggStep oracle filters) acc =
      (acc.1 ++ concatMapL (srcContribution oracle filters) sources,
       acc.2 ++ concatMapL (srcEvents oracle filters) sources) := by
  intro sources
  induction sources with
  | nil => intro acc; simp [concatMapL]
  | cons s rest ih =>
    intro acc
    rw [List.foldl_cons, ih]
    simp [aggStep, concatMapL, List.append_assoc]

theorem parseFromSources_eq (sources : List ProxySource)
    (filters : Option ParseFilters) (oracle : FetchOracle) :
    parseFromSources sources filters oracle =
      (dedupProxies (concatMapL (srcContribution oracle filters) sources),
       concatMapL (srcEvents oracle filters) sources) := by
  unfold parseFromSources
  rw [foldl_aggStep]
  simp

/-! ### Sample sources and oracles for concrete runs -/

/-- The free-proxy-list.net source (default source list, database.ts). -/
def fplSource : ProxySource :=
  { name := "Free Proxy List", url := "https://free-proxy-list.net/" }

/-- The geonode source (default source list, database.ts). -/
def geoSource : ProxySource :=
  { name := "GeoNode", url := "https://proxylist.geonode.com/api/proxy-list" }

/-- A network where the HTML and text fetches throw and the geonode API
returns one SOCKS5 endpoint. -/
def c6Oracle : FetchOracle :=
  { html := fun _ => none, text := fun _ => none,
    geo := fun _ => some [{ ip := "10.0.0.2", port := 1080,
                            protocols := ["socks5"] }] }

/-- A network where the HTML sources return one table row and everything
else throws. -/
def htmlOracle : FetchOracle :=
  { html := fun _ =>
      some [["10.0.0.1", "8080", "US", "x", "elite proxy", "x", "yes"]],
    text := fun _ => none, geo := fun _ => none }

/-- Claim C5: source aggregation deduplicates its combined result by
`(address, port)` identity keeping the first-seen record — the kept list
is a sublist of the input with pairwise distinct keys, every input key
is represented, and each kept record is the first input record with its
key — and this makes aggregation idempotent: for every source,
aggregating the same source twice yields the same candidate set as
aggregating it once. -/
theorem c5_dedup_idempotent :
    (∀ l : List ParsedProxy, List.Sublist (dedupProxies l) l) ∧
    (∀ l : List ParsedProxy, ((dedupProxies l).map proxyKey).Nodup) ∧
    (∀ (l : List ParsedProxy) (x : ParsedProxy), x ∈ l →
      ∃ y ∈ dedupProxies l, proxyKey y = proxyKey x) ∧
    (∀ (l : List ParsedProxy) (y : ParsedProxy), y ∈ dedupProxies l →
      l.find? (fun z => proxyKey z == proxyKey y) = some y) ∧
    (∀ (s : ProxySource) (filters : Option ParseFilters) (oracle : FetchOracle),
      (parseFromSources [s, s] filters oracle).1 =
        (parseFromSources [s] filters oracle).1) := by
  refine ⟨fun l => dedupKeyed_sublist l [],
    fun l => dedupKeyed_keys_nodup l [],
    fun l x hx => dedupKeyed_covers l [] x hx (List.not_mem_nil _),
    fun l y hy => dedupKeyed_first_seen l [] y hy, ?_⟩
  intro s filters oracle
  rw [parseFromSources_eq, parseFromSources_eq]
  show dedupProxies (concatMapL (srcContribution oracle filters) [s, s]) =
    dedupProxies (concatMapL (srcContribution oracle filters) [s])
  simp only [concatMapL, List.append_nil]
  exact dedup_append_self _

/-- Witness for `c5_dedup_idempotent` at concrete inputs. -/
theorem c5_dedup_idempotent_witness :
    (∃ y ∈ dedupProxies [({ ip := "10.0.0.1", port := 8080 } : ParsedProxy)],
      proxyKey y = proxyKey ({ ip := "10.0.0.1", port := 8080 } : ParsedProxy)) ∧
    (parseFromSources [fplSource, fplSource] none htmlOracle).1 =
      (parseFromSources [fplSource] none htmlOracle).1 :=
  ⟨c5_dedup_idempotent.2.2.1 _ _ (by decide),
   c5_dedup_idempotent.2.2.2.2 fplSource none htmlOracle⟩

/-- Claim C6 (counterexample): the claim says a failing source is
reported with a `status: error` progress event.  In the code every
parser catches its own fetch and parse exceptions internally and returns
the (empty) list collected so far, so `parseFromSources` reports the
failed source with `status: done` and count 0 — the `error` branch of
its outer catch never fires.  Concretely: the free-proxy-list fetch
throws, the geonode fetch succeeds; the trace contains no `error` event,
the failed source is reported `done` with count 0, and the other
source's candidate is still returned. -/
theorem c6_counterexample :
    (parseFromSources [fplSource, geoSource] none c6Oracle).2 =
      [{ source := "Free Proxy List", count := 0, status := "parsing" },
       { source := "Free Proxy List", count := 0, status := "done" },
       { source := "GeoNode", count := 0, status := "parsing" },
       { source := "GeoNode", count := 1, status := "done" }] ∧
    (∀ e ∈ (parseFromSources [fplSource, geoSource] none c6Oracle).2,
      e.status ≠ "error") ∧
    (parseFromSources [fplSource, geoSource] none c6Oracle).1 =
      [{ ip := "10.0.0.2", port := 1080, type := some "SOCKS5" }] :=
  ⟨by decide, by decide, by decide⟩

/-- Claim C6 (amended): one source's failure never aborts aggregation of
the others — the aggregate result decomposes source by source, a fetch
exception makes the failing parser return the empty list (the failure is
caught at parser granularity), and a source contributing nothing leaves
the combined candidate set of the remaining sources unchanged while
being reported with `parsing` and `done` (count 0) progress events
rather than an `error` event. -/
theorem c6_source_failure_isolated :
    (∀ (sources : List ProxySource) (filters : Option ParseFilters)
        (oracle : FetchOracle),
      parseFromSources sources filters oracle =
        (dedupProxies (concatMapL (srcContribution oracle filters) sources),
         concatMapL (srcEvents oracle filters) sources)) ∧
    parseFreeProxyList none = [] ∧
    (∀ (ss1 : List ProxySource) (s : ProxySource) (ss2 : List ProxySource)
        (filters : Option ParseFilters) (oracle : FetchOracle),
      srcContribution oracle filters s = [] →
      (parseFromSources (ss1 ++ s :: ss2) filters oracle).1 =
        (parseFromSources (ss1 ++ ss2) filters oracle).1 ∧
      (parseFromSources (ss1 ++ s :: ss2) filters oracle).2 =
        concatMapL (srcEvents oracle filters) ss1 ++
          ([{ source := s.name, count := 0, status := "parsing" },
            { source := s.name, count := 0, status := "done" }] ++
           concatMapL (srcEvents oracle filters) ss2)) := by
  refine ⟨parseFromSources_eq, rfl, ?_⟩
  intro ss1 s ss2 filters oracle hfail
  have hev : srcEvents oracle filters s =
      [{ source := s.name, count := 0, status := "parsing" },
       { source := s.name, count := 0, status := "done" }] := by
    simp [srcEvents, hfail]
  constructor
  · rw [parseFromSources_eq, parseFromSources_eq]
    have h1 : concatMapL (srcContribution oracle filters) (ss1 ++ s :: ss2) =
        concatMapL (srcContribution oracle filters) (ss1 ++ ss2) := by
      rw [concatMapL_append, concatMapL_append]
      simp only [concatMapL, hfail, List.nil_append]
    rw [h1]
  · rw [parseFromSources_eq]
    simp only [concatMapL_append, concatMapL, hev]

/-- Witness for `c6_source_failure_isolated` at concrete inputs. -/
theorem c6_source_failure_isolated_witness :
    srcContribution c6Oracle none fplSource = [] ∧
    (parseFromSources ([] ++ fplSource :: [geoSource]) none c6Oracle).1 =
      (parseFromSources ([] ++ [geoSource]) none c6Oracle).1 :=
  ⟨by decide,
   (c6_source_failure_isolated.2.2 [] fplSource [geoSource] none c6Oracle
     (by decide)).1⟩

/-! ## The verification engine (`src/main/checker.ts`)

`ProxyChecker.checkAll` seeds a shared queue, launches
`min(threads, proxies.length)` copies of `processNext`, waits for all of
them, and finishes.  JavaScript is single-threaded: a worker runs
uninterrupted between two `await` points.  The run is therefore modeled
as a transition relation with three kinds of atomic steps:

* `pop` — a worker passes the
  `while (queue.length > 0 && !this.stopped)` check, shifts the head of
  the queue and starts its probe (the probe's start log at the top of
  `checkProxy` is emitted synchronously here);
* `complete` — an in-flight probe resolves (lines 96–120 plus the tail
  of `checkProxy`): the outcome is classified, logged, persisted or
  collected for deletion, the counters are bumped and a snapshot
  emitted, all in one synchronous segment;
* `stop` — `stop()` sets the shared cancellation flag.

The worker-count bound only limits how many probes can be in flight;
none of the claimed properties depend on it, and every interleaving of
any number of workers is a trace of this relation. -/

/-- A queued endpoint (`ProxyToCheck`, checker.ts lines 7–14). -/
structure ProxyToCheck where
  id : Nat
  ip : String
  port : Nat
  type : String
  username : Option String := none
  password : Option String := none
deriving DecidableEq

/-- A verification outcome (`CheckResult`, checker.ts lines 16–26).
`latency` and `anonymity` stay `none` when the source leaves the fields
undefined; `country` fields are never set by `checkProxy` and are
omitted. -/
structure CheckResult where
  id : Nat
  ip : String
  port : Nat
  type : String
  status : String
  latency : Option Nat := none
  anonymity : Option String := none
deriving DecidableEq

/-- `CheckerOptions` (checker.ts lines 28–34). -/
structure CheckerOptions where
  threads : Nat
  timeout : Nat
  testUrl : String
  deleteDead : Bool
  checkAnonymity : Bool
deriving DecidableEq

/-- One `updateProxy(id, data)` persistence call (checker.ts
lines 103–110); the impure `last_checked` wall-clock field is elided. -/
structure UpdateCall where
  id : Nat
  status : String
  latency : Option Nat
  anonymity : Option String
deriving DecidableEq

/-- One emitted progress snapshot (`emitProgress`, checker.ts
lines 157–173). -/
structure ProgressSnapshot where
  checked : Nat
  total : Nat
  working : Nat
  dead : Nat
  deleted : Nat
  percent : Nat
  logs : List String
  lastResult : Option (String × String × Option Nat × Option String)
deriving DecidableEq

/-- Outcome of the single GET issued through the endpoint
(checker.ts lines 193–198): a response with its HTTP status and the
elapsed wall-clock milliseconds (`validateStatus: () => true` makes
every received status a response, not an exception), or a transport
error / timeout exception. -/
inductive ProbeResult
  | ok (status : Nat) (elapsed : Nat)
  | err
deriving DecidableEq

/-- The run state: the `ProxyChecker` fields plus the run-local
structures of `checkAll` and the externally observable traces.
`queue`, `results` are the run locals; `inflight` is the multiset of
endpoints whose probe has started and not yet resolved; `popped` is the
pop-order history (a ghost variable); `updates`, `deletions`, `events`
record the calls made to the persistence collaborator and the emitted
snapshots; `anonProbes` counts issued anonymity probes. -/
structure RunState where
  stopped : Bool
  checked : Nat
  working : Nat
  dead : Nat
  total : Nat
  logs : List String
  deadIds : List Nat
  myIp : String
  queue : List ProxyToCheck
  inflight : List ProxyToCheck
  popped : List ProxyToCheck
  results : List CheckResult
  updates : List UpdateCall
  deletions : List (List Nat)
  events : List ProgressSnapshot
  anonProbes : Nat
deriving DecidableEq

/-- `addLog` (checker.ts lines 57–63): push, then keep the last 500
entries (`logs.slice(-500)`) when the length exceeds 500.  The impure
`[time]` prefix of the message is elided. -/
def addLog (logs : List String) (msg : String) : List String :=
  let l := logs ++ [msg]
  if 500 < l.length then l.drop (l.length - 500) else l

/-- `addLog` applied to the state. -/
def stAddLog (s : RunState) (msg : String) : RunState :=
  { s with logs := addLog s.logs msg }

/-- The `percent` field of a snapshot (checker.ts line 164):
`total > 0 ? Math.round(checked / total * 100) : 0`, with
`Math.round x = ⌊x + 1/2⌋` for the nonnegative values that occur. -/
def percentOf (checked total : Nat) : Nat :=
  if 0 < total then (200 * checked + total) / (2 * total) else 0

/-- The snapshot built by `emitProgress` (checker.ts lines 157–173):
counters, `deleted = deadIds.length`, the guarded percentage, the last
100 log lines, and the optional last outcome. -/
def snapshotOf (s : RunState) (last : Option CheckResult) : ProgressSnapshot :=
  { checked := s.checked, total := s.total, working := s.working,
    dead := s.dead, deleted := s.deadIds.length,
    percent := percentOf s.checked s.total,
    logs := s.logs.drop (s.logs.length - 100),
    lastResult := last.map (fun r =>
      (r.ip ++ ":" ++ toString r.port, r.status, r.latency, r.anonymity)) }

/-- `emitProgress` on the state: append the snapshot to the event trace. -/
def emitProgress (s : RunState) (last : Option CheckResult) : RunState :=
  { s with events := s.events ++ [snapshotOf s last] }

/-- `getAnonymityLabel` (checker.ts lines 226–233). -/
def getAnonymityLabel (level : Option String) : String :=
  match level with
  | some "elite" => "🛡️ Elite (высокая)"
  | some "anonymous" => "🔒 Anonymous (средняя)"
  | some "transparent" => "⚠️ Transparent (низкая)"
  | _ => "❓ Неизвестно"

/-- `checkProxy` (checker.ts lines 175–224) as a function of the probe
oracles: a response with status in `[200, 400)` is `working` with the
elapsed latency; the anonymity probe is issued only for a working result
when `checkAnonymity` is set and `myIp` is nonempty (line 207), else the
grade is `unknown`.  Any other status, and any exception, leaves the
initial `dead` result (latency and anonymity unset).  The returned flag
records whether the anonymity probe was issued. -/
def checkProxy (opts : CheckerOptions) (myIp : String) (p : ProxyToCheck)
    (pr : ProbeResult) (ar : AnonProbeResult) : CheckResult × Bool :=
  let base : CheckResult :=
    { id := p.id, ip := p.ip, port := p.port, type := p.type,
      status := "dead" }
  match pr with
  | .err => (base, false)
  | .ok status elapsed =>
    if 200 ≤ status ∧ status < 400 then
      if opts.checkAnonymity && myIp != "" then
        ({ base with
            status := "working", latency := some elapsed,
            anonymity := some (checkAnonymityProbe myIp ar) }, true)
      else
        ({ base with
            status := "working", latency := some elapsed,
            anonymity := some "unknown" }, false)
    else (base, false)

/-- The completion log line of `checkProxy` (lines 209, 212, 215, 219);
its exact text is irrelevant to every property proved here. -/
def completionLogMsg (p : ProxyToCheck) (r : CheckResult) : String :=
  let proxyStr := p.ip ++ ":" ++ toString p.port
  if r.status == "working" then
    "✅ " ++ proxyStr ++ " — " ++ toString (r.latency.getD 0) ++ "ms"
  else
    "❌ " ++ proxyStr

/-- `detectMyIp` (checker.ts lines 144–155): the probe oracle yields
`some origin` on success and `none` on an exception; the stored address
is `response.data?.origin || ''`, and on an exception the field keeps
its initial empty value. -/
def detectMyIp (resp : Option String) : String :=
  match resp with
  | some origin => origin
  | none => ""

/-- The log lines written by `checkAll` before the workers start
(checker.ts lines 74–78) and by `detectMyIp` (lines 146–153): the five
banner lines, then — only when anonymity checking is on — the detection
line followed by the success line (nonempty address), the failure line
(exception), or nothing (empty `origin`). -/
def initLogs (opts : CheckerOptions) (proxies : List ProxyToCheck)
    (ipProbe : Option String) : List String :=
  let l5 :=
    addLog (addLog (addLog (addLog (addLog []
      ("🚀 Начало проверки " ++ toString proxies.length ++ " прокси"))
      ("⚙️ Потоков: " ++ toString opts.threads ++ ", Таймаут: " ++ toString opts.timeout ++ "ms"))
      ("🔗 URL: " ++ opts.testUrl))
      ("🗑️ Удалять мёртвые: " ++ (if opts.deleteDead then "Да" else "Нет")))
      ("🔒 Проверка анонимности: " ++ (if opts.checkAnonymity then "Да" else "Нет"))
  if opts.checkAnonymity then
    let la := addLog l5 "🔍 Определение вашего IP для проверки анонимности..."
    if detectMyIp ipProbe != "" then
      addLog la ("📍 Ваш IP: " ++ detectMyIp ipProbe)
    else if ipProbe.isNone then addLog la "⚠️ Не удалось определить ваш IP"
    else la
  else l5

/-- The initialization phase of `checkAll` (checker.ts lines 66–85):
reset every field, write the banner log lines, resolve the self-address
when anonymity checking is on (`myIp` keeps its initial empty value
otherwise and on a failed resolution), then emit the first snapshot. -/
def initRun (opts : CheckerOptions) (proxies : List ProxyToCheck)
    (ipProbe : Option String) : RunState :=
  emitProgress
    { stopped := false, checked := 0, working := 0, dead := 0,
      total := proxies.length,
      logs := initLogs opts proxies ipProbe, deadIds := [],
      myIp := if opts.checkAnonymity then detectMyIp ipProbe else "",
      queue := proxies, inflight := [], popped := [], results := [],
      updates := [], deletions := [], events := [], anonProbes := 0 }
    none

/-- A worker passes the loop check and shifts the queue head
(checker.ts lines 92–94); `checkProxy` then logs its start line
synchronously (line 177) before suspending on the GET. -/
def popStep (s : RunState) : RunState :=
  match s.queue with
  | [] => s
  | p :: rest =>
    stAddLog
      { s with queue := rest, inflight := p :: s.inflight,
               popped := s.popped ++ [p] }
      ("🔍 " ++ p.ip ++ ":" ++ toString p.port ++ " (" ++ p.type ++ ")")

/-- Remove one occurrence of an element. -/
def eraseOne {α : Type} [DecidableEq α] : List α → α → List α
  | [], _ => []
  | x :: xs, a => if x = a then xs else x :: eraseOne xs a

/-- An in-flight probe for `p` resolves: the synchronous segment of
checker.ts lines 96–120 together with the classification tail of
`checkProxy` — log the outcome, collect the id for batched deletion
(dead and `deleteDead`) or persist the record individually (any other
case), push the result, bump `checked` and `working`/`dead`, and emit a
snapshot carrying the outcome. -/
def completeStep (opts : CheckerOptions) (s : RunState) (p : ProxyToCheck)
    (pr : ProbeResult) (ar : AnonProbeResult) : RunState :=
  let rb := checkProxy opts s.myIp p pr ar
  let result := rb.1
  let s1 := stAddLog { s with inflight := eraseOne s.inflight p }
    (completionLogMsg p result)
  let s2 :=
    if result.status == "dead" && opts.deleteDead then
      { s1 with deadIds := s1.deadIds ++ [result.id] }
    else
      { s1 with updates := s1.updates ++
          [{ id := result.id, status := result.status,
             latency := result.latency, anonymity := result.anonymity }] }
  let s3 :=
    { s2 with results := s2.results ++ [result],
              checked := s2.checked + 1,
              working := if result.status == "working" then s2.working + 1
                         else s2.working,
              dead := if result.status == "working" then s2.dead
                      else s2.dead + 1,
              anonProbes := s2.anonProbes + (if rb.2 then 1 else 0) }
  emitProgress s3 (some result)

/-- `stop()` (checker.ts lines 52–55). -/
def stopStep (s : RunState) : RunState :=
  stAddLog { s with stopped := true } "⏹ Проверка остановлена пользователем"

/-- The atomic transitions of a run. -/
inductive RunStep (opts : CheckerOptions) : RunState → RunState → Prop
  | pop (s : RunState) (hq : s.queue ≠ []) (hs : s.stopped = false) :
      RunStep opts s (popStep s)
  | complete (s : RunState) (p : ProxyToCheck) (pr : ProbeResult)
      (ar : AnonProbeResult) (hp : p ∈ s.inflight) :
      RunStep opts s (completeStep opts s p pr ar)
  | stop (s : RunState) : RunStep opts s (stopStep s)

/-- Zero or more run steps. -/
def Reaches (opts : CheckerOptions) : RunState → RunState → Prop :=
  Relation.ReflTransGen (RunStep opts)

/-- The tail of `checkAll` after `Promise.all` returns, on both the
drain and the cancellation path (checker.ts lines 131–139): issue the
single batched `deleteProxies(deadIds)` call when `deleteDead` is set
and at least one id was collected, write the closing log lines, and emit
the final snapshot. -/
def finishRun (opts : CheckerOptions) (s : RunState) : RunState :=
  let s1 :=
    if opts.deleteDead ∧ 0 < s.deadIds.length then
      let sa := stAddLog s ("🗑️ Удаление " ++ toString s.deadIds.length ++ " мёртвых прокси...")
      let sb := { sa with deletions := sa.deletions ++ [sa.deadIds] }
      stAddLog sb ("✅ Удалено " ++ toString sb.deadIds.length ++ " мёртвых прокси")
    else s
  let s2 := stAddLog s1 ("✅ Проверка завершена: " ++ toString s1.working ++ " рабочих, " ++ toString s1.dead ++ " мёртвых")
  emitProgress s2 none

/-! ### Step-level facts -/

theorem length_eraseOne_of_mem {α : Type} [DecidableEq α] :
    ∀ {l : List α} {a : α}, a ∈ l → (eraseOne l a).length + 1 = l.length := by
  intro l
  induction l with
  | nil => intro a ha; cases ha
  | cons x xs ih =>
    intro a ha
    by_cases hx : x = a
    · rw [eraseOne, if_pos hx]
      rfl
    · rw [eraseOne, if_neg hx]
      rcases List.mem_cons.mp ha with h | h
      · exact absurd h.symm hx
      · simpa using ih h

theorem completeStep_fields (opts : CheckerOptions) (s : RunState)
    (p : ProxyToCheck) (pr : ProbeResult) (ar : AnonProbeResult) :
    (completeStep opts s p pr ar).queue = s.queue ∧
    (completeStep opts s p pr ar).popped = s.popped ∧
    (completeStep opts s p pr ar).stopped = s.stopped ∧
    (completeStep opts s p pr ar).myIp = s.myIp ∧
    (completeStep opts s p pr ar).total = s.total ∧
    (completeStep opts s p pr ar).checked = s.checked + 1 ∧
    (completeStep opts s p pr ar).inflight = eraseOne s.inflight p ∧
    (completeStep opts s p pr ar).results =
      s.results ++ [(checkProxy opts s.myIp p pr ar).1] ∧
    (completeStep opts s p pr ar).deletions = s.deletions ∧
    (completeStep opts s p pr ar).working + (completeStep opts s p pr ar).dead
      = s.working + s.dead + 1 := by
  by_cases hcond :
      ((checkProxy opts s.myIp p pr ar).1.status == "dead" && opts.deleteDead) = true <;>
    by_cases hw : ((checkProxy opts s.myIp p pr ar).1.status == "working") = true <;>
      simp [completeStep, stAddLog, emitProgress, hcond, hw] <;> omega

theorem popStep_fields {s : RunState} {p : ProxyToCheck}
    {rest : List ProxyToCheck} (hq : s.queue = p :: rest) :
    (popStep s).queue = rest ∧
    (popStep s).inflight = p :: s.inflight ∧
    (popStep s).popped = s.popped ++ [p] ∧
    (popStep s).stopped = s.stopped ∧
    (popStep s).myIp = s.myIp ∧
    (popStep s).total = s.total ∧
    (popStep s).checked = s.checked ∧
    (popStep s).working = s.working ∧
    (popStep s).dead = s.dead ∧
    (popStep s).results = s.results ∧
    (popStep s).updates = s.updates ∧
    (popStep s).deadIds = s.deadIds ∧
    (popStep s).deletions = s.deletions ∧
    (popStep s).anonProbes = s.anonProbes := by
  simp [popStep, hq, stAddLog]

theorem stopStep_fields (s : RunState) :
    (stopStep s).queue = s.queue ∧
    (stopStep s).inflight = s.inflight ∧
    (stopStep s).popped = s.popped ∧
    (stopStep s).stopped = true ∧
    (stopStep s).myIp = s.myIp ∧
    (stopStep s).total = s.total ∧
    (stopStep s).checked = s.checked ∧
    (stopStep s).working = s.working ∧
    (stopStep s).dead = s.dead ∧
    (stopStep s).results = s.results ∧
    (stopStep s).updates = s.updates ∧
    (stopStep s).deadIds = s.deadIds ∧
    (stopStep s).deletions = s.deletions ∧
    (stopStep s).anonProbes = s.anonProbes := by
  simp [stopStep, stAddLog]

/-! ### The counter invariant (claim C1) -/

/-- The counter invariant: the two visible counters split `checked`
exactly, and `checked` plus the in-flight and still-queued endpoints
accounts for the whole batch. -/
def counterInv (s : RunState) : Prop :=
  s.checked = s.working + s.dead ∧
  s.checked + s.inflight.length + s.queue.length = s.total

theorem counterInv_init (opts : CheckerOptions) (proxies : List ProxyToCheck)
    (ipProbe : Option String) : counterInv (initRun opts proxies ipProbe) := by
  constructor <;> simp [initRun, emitProgress]

theorem counterInv_step {opts : CheckerOptions} {s s' : RunState}
    (h : RunStep opts s s') (hi : counterInv s) : counterInv s' := by
  obtain ⟨h1, h2⟩ := hi
  cases h with
  | pop hq hs =>
    cases hqe : s.queue with
    | nil => exact absurd hqe hq
    | cons p rest =>
      obtain ⟨e1, e2, _, _, _, e6, e7, _⟩ := popStep_fields hqe
      have hql : s.queue.length = rest.length + 1 := by rw [hqe]; rfl
      constructor
      · rw [e7, (popStep_fields hqe).2.2.2.2.2.2.2.1,
          (popStep_fields hqe).2.2.2.2.2.2.2.2.1]
        exact h1
      · rw [e1, e2, e6, e7]
        simp only [List.length_cons]
        omega
  | complete p pr ar hp =>
    obtain ⟨e1, _, _, _, e5, e6, e7, _, _, e10⟩ := completeStep_fields opts s p pr ar
    have hlen := length_eraseOne_of_mem hp
    constructor
    · omega
    · rw [e1, e5, e6, e7]
      omega
  | stop =>
    obtain ⟨e1, e2, _, _, _, e6, e7, e8, e9, _⟩ := stopStep_fields s
    constructor
    · rw [e7, e8, e9]; exact h1
    · rw [e7, e2, e1, e6]; exact h2

theorem counterInv_reaches {opts : CheckerOptions} {s s' : RunState}
    (h : Reaches opts s s') (hi : counterInv s) : counterInv s' := by
  induction h with
  | refl => exact hi
  | tail hab hbc ih => exact counterInv_step hbc ih

/-- Claim C1: for every verification run, at every reachable point the
counter equality `checked = working + dead` holds and `checked` never
exceeds `total`; and when the queue has drained and every in-flight
probe has completed, `checked` equals `total`, the number of candidate
endpoints. -/
theorem c1_counters_invariant :
    ∀ (opts : CheckerOptions) (proxies : List ProxyToCheck)
      (ipProbe : Option String) (s : RunState),
    Reaches opts (initRun opts proxies ipProbe) s →
    s.checked = s.working + s.dead ∧
    s.checked ≤ s.total ∧
    (s.queue = [] → s.inflight = [] → s.checked = s.total) := by
  intro opts proxies ipProbe s h
  obtain ⟨h1, h2⟩ := counterInv_reaches h (counterInv_init opts proxies ipProbe)
  refine ⟨h1, by omega, ?_⟩
  intro hq hin
  rw [hq, hin] at h2
  simpa using h2

/-- A sample configuration for concrete runs. -/
def sampleOpts : CheckerOptions :=
  { threads := 4, timeout := 5000, testUrl := "http://azenv.net/",
    deleteDead := true, checkAnonymity := false }

/-- A sample endpoint. -/
def sampleProxy : ProxyToCheck :=
  { id := 1, ip := "10.0.0.1", port := 8080, type := "HTTP" }

/-- The initial state of the sample run. -/
def sampleInit : RunState := initRun sampleOpts [sampleProxy] none

/-- The sample run after its single worker pops the only endpoint. -/
def samplePopped : RunState := popStep sampleInit

/-- The sample run after the probe resolves with HTTP 200 in 120 ms. -/
def sampleDone : RunState :=
  completeStep sampleOpts samplePopped sampleProxy (.ok 200 120) .err

theorem sample_trace : Reaches sampleOpts sampleInit sampleDone :=
  Relation.ReflTransGen.tail
    (Relation.ReflTransGen.tail Relation.ReflTransGen.refl
      (RunStep.pop sampleInit (by decide) (by decide)))
    (RunStep.complete samplePopped sampleProxy (.ok 200 120) .err (by decide))

/-- Witness for `c1_counters_invariant`: the completed one-endpoint
sample run. -/
theorem c1_counters_invariant_witness :
    sampleDone.checked = sampleDone.working + sampleDone.dead ∧
    sampleDone.checked ≤ sampleDone.total ∧
    (sampleDone.queue = [] → sampleDone.inflight = [] →
      sampleDone.checked = sampleDone.total) :=
  c1_counters_invariant sampleOpts [sampleProxy] none sampleDone sample_trace

/-- Claim C7: cancellation is cooperative.  Once the stop flag is set no
step pops an endpoint (the queue and the pop history are frozen, and the
flag stays set; only in-flight probes may still complete); a trace whose
stop precedes any pop keeps `checked = 0` and produces no outcomes; and
the finishing phase that runs on both terminal paths always emits one
final snapshot. -/
theorem c7_cooperative_cancellation :
    (∀ (opts : CheckerOptions) (s s' : RunState), s.stopped = true →
      RunStep opts s s' →
      s'.queue = s.queue ∧ s'.popped = s.popped ∧ s'.stopped = true) ∧
    (∀ (opts : CheckerOptions) (proxies : List ProxyToCheck)
        (ipProbe : Option String) (s : RunState),
      Reaches opts (stopStep (initRun opts proxies ipProbe)) s →
      s.checked = 0 ∧ s.results = []) ∧
    (∀ (opts : CheckerOptions) (s : RunState),
      ∃ snap : ProgressSnapshot,
        (finishRun opts s).events = s.events ++ [snap]) := by
  refine ⟨?_, ?_, ?_⟩
  · intro opts s s' hstop h
    cases h with
    | pop hq hs => rw [hstop] at hs; cases hs
    | complete p pr ar hp =>
      obtain ⟨e1, e2, e3, _⟩ := completeStep_fields opts s p pr ar
      exact ⟨e1, e2, by rw [e3, hstop]⟩
    | stop =>
      obtain ⟨e1, _, e3, e4, _⟩ := stopStep_fields s
      exact ⟨e1, e3, e4⟩
  · intro opts proxies ipProbe s h
    have base : (stopStep (initRun opts proxies ipProbe)).stopped = true ∧
        (stopStep (initRun opts proxies ipProbe)).inflight = [] ∧
        (stopStep (initRun opts proxies ipProbe)).checked = 0 ∧
        (stopStep (initRun opts proxies ipProbe)).results = [] := by
      obtain ⟨_, e2, _, e4, _, _, e7, _, _, er, _⟩ :=
        stopStep_fields (initRun opts proxies ipProbe)
      exact ⟨e4, e2.trans rfl, e7.trans rfl, er.trans rfl⟩
    have inv : s.stopped = true ∧ s.inflight = [] ∧ s.checked = 0 ∧
        s.results = [] := by
      induction h with
      | refl => exact base
      | tail hab hbc ih =>
        obtain ⟨i1, i2, i3, i4⟩ := ih
        cases hbc with
        | pop hq hs => rw [i1] at hs; cases hs
        | complete p pr ar hp => rw [i2] at hp; cases hp
        | stop =>
          obtain ⟨_, e2, _, e4, _, _, e7, _, _, er, _⟩ := stopStep_fields _
          exact ⟨e4, e2.trans i2, e7.trans i3, er.trans i4⟩
    exact ⟨inv.2.2.1, inv.2.2.2⟩
  · intro opts s
    simp only [finishRun, stAddLog, emitProgress]
    split
    · exact ⟨_, rfl⟩
    · exact ⟨_, rfl⟩

/-- Witness for `c7_cooperative_cancellation`: stopping the sample run
before any probe starts. -/
theorem c7_cooperative_cancellation_witness :
    (stopStep sampleInit).checked = 0 ∧ (stopStep sampleInit).results = [] :=
  c7_cooperative_cancellation.2.1 sampleOpts [sampleProxy] none _
    Relation.ReflTransGen.refl

/-! ### The pop history (claim C3): every probe consumes one queue slot -/

theorem popInv_step {opts : CheckerOptions} {proxies : List ProxyToCheck}
    {s s' : RunState} (h : RunStep opts s s')
    (hi : proxies = s.popped ++ s.queue ∧
      s.results.length + s.inflight.length = s.popped.length) :
    proxies = s'.popped ++ s'.queue ∧
    s'.results.length + s'.inflight.length = s'.popped.length := by
  obtain ⟨i1, i2⟩ := hi
  cases h with
  | pop hq hs =>
    cases hqe : s.queue with
    | nil => exact absurd hqe hq
    | cons p rest =>
      obtain ⟨e1, e2, e3, _, _, _, _, _, _, er, _⟩ := popStep_fields hqe
      constructor
      · rw [e3, e1, i1, hqe]
        simp
      · rw [er, e2, e3]
        simp only [List.length_append, List.length_cons, List.length_nil]
        omega
  | complete p pr ar hp =>
    obtain ⟨e1, e2, _, _, _, _, e7, e8, _, _⟩ := completeStep_fields opts s p pr ar
    constructor
    · rw [e2, e1]; exact i1
    · rw [e8, e7, e2]
      have hlen := length_eraseOne_of_mem hp
      simp only [List.length_append, List.length_cons, List.length_nil]
      omega
  | stop =>
    obtain ⟨e1, e2, e3, _, _, _, _, _, _, er, _⟩ := stopStep_fields s
    exact ⟨by rw [e3, e1]; exact i1, by rw [er, e2, e3]; exact i2⟩

theorem popInv_reaches {opts : CheckerOptions} {proxies : List ProxyToCheck}
    {ipProbe : Option String} {s : RunState}
    (h : Reaches opts (initRun opts proxies ipProbe) s) :
    proxies = s.popped ++ s.queue ∧
    s.results.length + s.inflight.length = s.popped.length := by
  induction h with
  | refl => exact ⟨rfl, rfl⟩
  | tail hab hbc ih => exact popInv_step hbc ih

/-- Claim C3: a probe that returns a response with HTTP status in
`[200, 400)` yields a `working` outcome whose latency is the elapsed
wall time of that single request; a response with any other status, or
any transport error / timeout exception, yields `dead` with no latency.
No endpoint is probed twice within a run: the pop history plus the
remaining queue is exactly the input batch, every result consumed
exactly one pop, and a drained run has exactly one outcome per
candidate. -/
theorem c3_probe_classification :
    (∀ (opts : CheckerOptions) (myIp : String) (p : ProxyToCheck)
        (st t : Nat) (ar : AnonProbeResult), 200 ≤ st → st < 400 →
      (checkProxy opts myIp p (.ok st t) ar).1.status = "working" ∧
      (checkProxy opts myIp p (.ok st t) ar).1.latency = some t) ∧
    (∀ (opts : CheckerOptions) (myIp : String) (p : ProxyToCheck)
        (st t : Nat) (ar : AnonProbeResult), st < 200 ∨ 400 ≤ st →
      (checkProxy opts myIp p (.ok st t) ar).1.status = "dead" ∧
      (checkProxy opts myIp p (.ok st t) ar).1.latency = none) ∧
    (∀ (opts : CheckerOptions) (myIp : String) (p : ProxyToCheck)
        (ar : AnonProbeResult),
      (checkProxy opts myIp p .err ar).1.status = "dead" ∧
      (checkProxy opts myIp p .err ar).1.latency = none) ∧
    (∀ (opts : CheckerOptions) (proxies : List ProxyToCheck)
        (ipProbe : Option String) (s : RunState),
      Reaches opts (initRun opts proxies ipProbe) s →
      proxies = s.popped ++ s.queue ∧
      s.results.length + s.inflight.length = s.popped.length ∧
      (s.queue = [] → s.inflight = [] →
        s.results.length = proxies.length)) := by
  refine ⟨?_, ?_, ?_, ?_⟩
  · intro opts myIp p st t ar h1 h2
    simp only [checkProxy]
    rw [if_pos ⟨h1, h2⟩]
    by_cases hca : (opts.checkAnonymity && myIp != "") = true
    · rw [if_pos hca]; exact ⟨rfl, rfl⟩
    · rw [if_neg hca]; exact ⟨rfl, rfl⟩
  · intro opts myIp p st t ar h
    simp only [checkProxy]
    rw [if_neg (by omega)]
    exact ⟨rfl, rfl⟩
  · intro opts myIp p ar
    exact ⟨rfl, rfl⟩
  · intro opts proxies ipProbe s h
    obtain ⟨i1, i2⟩ := popInv_reaches h
    refine ⟨i1, i2, ?_⟩
    intro hq hin
    rw [hq, List.append_nil] at i1
    rw [hin] at i2
    simp only [List.length_nil, Nat.add_zero] at i2
    rw [i1]
    exact i2

/-- Witness for `c3_probe_classification`: a 200-in-120ms probe and the
completed sample run. -/
theorem c3_probe_classification_witness :
    ((checkProxy sampleOpts "" sampleProxy (.ok 200 120) .err).1.status =
        "working" ∧
     (checkProxy sampleOpts "" sampleProxy (.ok 200 120) .err).1.latency =
        some 120) ∧
    ([sampleProxy] = sampleDone.popped ++ sampleDone.queue ∧
     sampleDone.results.length + sampleDone.inflight.length =
        sampleDone.popped.length ∧
     (sampleDone.queue = [] → sampleDone.inflight = [] →
        sampleDone.results.length = [sampleProxy].length)) :=
  ⟨c3_probe_classification.1 sampleOpts "" sampleProxy 200 120 .err
      (by decide) (by decide),
   c3_probe_classification.2.2.2 sampleOpts [sampleProxy] none sampleDone
      sample_trace⟩

/-! ### Persistence during a run (claim C4) -/

theorem checkProxy_status (opts : CheckerOptions) (myIp : String)
    (p : ProxyToCheck) (pr : ProbeResult) (ar : AnonProbeResult) :
    (checkProxy opts myIp p pr ar).1.status = "working" ∨
    (checkProxy opts myIp p pr ar).1.status = "dead" := by
  cases pr with
  | err => exact Or.inr rfl
  | ok st t =>
    simp only [checkProxy]
    by_cases h : 200 ≤ st ∧ st < 400
    · rw [if_pos h]
      by_cases hca : (opts.checkAnonymity && myIp != "") = true
      · rw [if_pos hca]; exact Or.inl rfl
      · rw [if_neg hca]; exact Or.inl rfl
    · rw [if_neg h]; exact Or.inr rfl

theorem completeStep_dead (opts : CheckerOptions) (s : RunState)
    (p : ProxyToCheck) (pr : ProbeResult) (ar : AnonProbeResult)
    (hd : ((checkProxy opts s.myIp p pr ar).1.status == "dead" &&
      opts.deleteDead) = true) :
    (completeStep opts s p pr ar).deadIds =
      s.deadIds ++ [(checkProxy opts s.myIp p pr ar).1.id] ∧
    (completeStep opts s p pr ar).updates = s.updates := by
  constructor <;> simp [completeStep, stAddLog, emitProgress, hd]

theorem completeStep_persist (opts : CheckerOptions) (s : RunState)
    (p : ProxyToCheck) (pr : ProbeResult) (ar : AnonProbeResult)
    (hd : ((checkProxy opts s.myIp p pr ar).1.status == "dead" &&
      opts.deleteDead) = false) :
    (completeStep opts s p pr ar).deadIds = s.deadIds ∧
    (completeStep opts s p pr ar).updates = s.updates ++
      [{ id := (checkProxy opts s.myIp p pr ar).1.id,
         status := (checkProxy opts s.myIp p pr ar).1.status,
         latency := (checkProxy opts s.myIp p pr ar).1.latency,
         anonymity := (checkProxy opts s.myIp p pr ar).1.anonymity }] := by
  constructor <;> simp [completeStep, stAddLog, emitProgress, hd]

/-- The invariant of a `deleteDead` run: no deletion call yet, every
individual persistence call carries a working record, and the collected
ids are exactly the dead outcomes' ids in completion order. -/
def deleteInv (s : RunState) : Prop :=
  s.deletions = [] ∧
  (∀ u ∈ s.updates, u.status = "working") ∧
  s.deadIds = (s.results.filter (fun r => r.status == "dead")).map
    (fun r => r.id)

theorem deleteInv_step {opts : CheckerOptions} {s s' : RunState}
    (hdd : opts.deleteDead = true) (h : RunStep opts s s')
    (hi : deleteInv s) : deleteInv s' := by
  obtain ⟨i1, i2, i3⟩ := hi
  cases h with
  | pop hq hs =>
    cases hqe : s.queue with
    | nil => exact absurd hqe hq
    | cons p rest =>
      obtain ⟨_, _, _, _, _, _, _, _, _, er, eu, ed, edel, _⟩ :=
        popStep_fields hqe
      exact ⟨edel.trans i1, by rw [eu]; exact i2, by rw [ed, er]; exact i3⟩
  | complete p pr ar hp =>
    obtain ⟨_, _, _, _, _, _, _, e8, e9, _⟩ := completeStep_fields opts s p pr ar
    rcases checkProxy_status opts s.myIp p pr ar with hw | hd
    · have hcond : ((checkProxy opts s.myIp p pr ar).1.status == "dead" &&
          opts.deleteDead) = false := by
        rw [hw]; rfl
      obtain ⟨ed, eu⟩ := completeStep_persist opts s p pr ar hcond
      refine ⟨e9.trans i1, ?_, ?_⟩
      · intro u hu
        rw [eu] at hu
        rcases List.mem_append.mp hu with h1 | h1
        · exact i2 u h1
        · rw [List.mem_singleton.mp h1]
          exact hw
      · rw [ed, e8, i3, List.filter_append]
        have hfalse : ((checkProxy opts s.myIp p pr ar).1.status == "dead")
            = false := by rw [hw]; rfl
        simp [hfalse]
    · have hcond : ((checkProxy opts s.myIp p pr ar).1.status == "dead" &&
          opts.deleteDead) = true := by
        rw [hd, hdd]; rfl
      obtain ⟨ed, eu⟩ := completeStep_dead opts s p pr ar hcond
      refine ⟨e9.trans i1, by rw [eu]; exact i2, ?_⟩
      rw [ed, e8, i3, List.filter_append]
      have htrue : ((checkProxy opts s.myIp p pr ar).1.status == "dead")
          = true := by rw [hd]; rfl
      simp [htrue]
  | stop =>
    obtain ⟨_, _, _, _, _, _, _, _, _, er, eu, ed, edel, _⟩ := stopStep_fields s
    exact ⟨edel.trans i1, by rw [eu]; exact i2, by rw [ed, er]; exact i3⟩

theorem deleteInv_reaches {opts : CheckerOptions} {a s : RunState}
    (hdd : opts.deleteDead = true) (h : Reaches opts a s)
    (hi : deleteInv a) : deleteInv s := by
  induction h with
  | refl => exact hi
  | tail hab hbc ih => exact deleteInv_step hdd hbc ih

theorem finishRun_deletions (opts : CheckerOptions) (s : RunState) :
    (finishRun opts s).deletions =
      if opts.deleteDead ∧ 0 < s.deadIds.length then
        s.deletions ++ [s.deadIds]
      else s.deletions := by
  by_cases hc : opts.deleteDead = true ∧ 0 < s.deadIds.length
  · rw [if_pos hc]
    simp only [finishRun, stAddLog, emitProgress]
    rw [if_pos hc]
  · rw [if_neg hc]
    simp only [finishRun, stAddLog, emitProgress]
    rw [if_neg hc]

/-- The sample run after its only probe fails with a transport error:
a dead outcome under `deleteDead`. -/
def sampleDeadDone : RunState :=
  completeStep sampleOpts samplePopped sampleProxy .err .err

theorem sample_dead_trace : Reaches sampleOpts sampleInit sampleDeadDone :=
  Relation.ReflTransGen.tail
    (Relation.ReflTransGen.tail Relation.ReflTransGen.refl
      (RunStep.pop sampleInit (by decide) (by decide)))
    (RunStep.complete samplePopped sampleProxy .err .err (by decide))

/-- Claim C4 (counterexample): the claim says that with
`deleteDeadOnCompletion` enabled every run issues exactly one batched
deletion call after the workers finish.  A completed run that collected
no dead endpoint issues zero deletion calls
(`this.deadIds.length > 0` guard, checker.ts line 132): the drained
one-endpoint sample run with a working outcome finishes with an empty
deletion-call list. -/
theorem c4_counterexample :
    sampleOpts.deleteDead = true ∧
    (finishRun sampleOpts sampleDone).queue = [] ∧
    (finishRun sampleOpts sampleDone).inflight = [] ∧
    (finishRun sampleOpts sampleDone).deletions = [] ∧
    (finishRun sampleOpts sampleDone).deletions.length ≠ 1 :=
  ⟨rfl, by decide, by decide, by decide, by decide⟩

/-- Claim C4 (amended): when `deleteDeadOnCompletion` is enabled, during
the run no deletion call is issued, no dead endpoint is persisted
individually (every individual persistence call carries a working
record, written as the endpoint completes), and the collected ids are
exactly the dead outcomes' ids; after the workers finish the finishing
phase issues at most one batched deletion call — exactly one, containing
exactly the collected set, when at least one dead endpoint was
collected, and zero otherwise. -/
theorem c4_batched_deletion :
    (∀ (opts : CheckerOptions) (proxies : List ProxyToCheck)
        (ipProbe : Option String) (s : RunState),
      opts.deleteDead = true →
      Reaches opts (initRun opts proxies ipProbe) s →
      s.deletions = [] ∧
      (∀ u ∈ s.updates, u.status = "working") ∧
      s.deadIds = (s.results.filter (fun r => r.status == "dead")).map
        (fun r => r.id)) ∧
    (∀ (opts : CheckerOptions) (s : RunState),
      (finishRun opts s).deletions =
        if opts.deleteDead ∧ 0 < s.deadIds.length then
          s.deletions ++ [s.deadIds]
        else s.deletions) ∧
    (∀ (opts : CheckerOptions) (s : RunState) (p : ProxyToCheck)
        (pr : ProbeResult) (ar : AnonProbeResult),
      (checkProxy opts s.myIp p pr ar).1.status = "working" →
      (completeStep opts s p pr ar).updates = s.updates ++
        [{ id := (checkProxy opts s.myIp p pr ar).1.id,
           status := (checkProxy opts s.myIp p pr ar).1.status,
           latency := (checkProxy opts s.myIp p pr ar).1.latency,
           anonymity := (checkProxy opts s.myIp p pr ar).1.anonymity }]) := by
  refine ⟨?_, finishRun_deletions, ?_⟩
  · intro opts proxies ipProbe s hdd h
    exact deleteInv_reaches hdd h
      ⟨rfl, fun u hu => absurd hu (List.not_mem_nil u), rfl⟩
  · intro opts s p pr ar hw
    exact (completeStep_persist opts s p pr ar (by rw [hw]; rfl)).2

/-- Witness for `c4_batched_deletion`: the one-endpoint run whose probe
fails, so one dead id is collected and the finish phase issues the
single batch. -/
theorem c4_batched_deletion_witness :
    sampleOpts.deleteDead = true ∧
    (sampleDeadDone.deletions = [] ∧
     (∀ u ∈ sampleDeadDone.updates, u.status = "working") ∧
     sampleDeadDone.deadIds =
       (sampleDeadDone.results.filter (fun r => r.status == "dead")).map
         (fun r => r.id)) ∧
    (finishRun sampleOpts sampleDeadDone).deletions =
      (if sampleOpts.deleteDead ∧ 0 < sampleDeadDone.deadIds.length then
        sampleDeadDone.deletions ++ [sampleDeadDone.deadIds]
      else sampleDeadDone.deletions) :=
  ⟨rfl,
   c4_batched_deletion.1 sampleOpts [sampleProxy] none sampleDeadDone rfl
     sample_dead_trace,
   c4_batched_deletion.2.1 sampleOpts sampleDeadDone⟩

/-! ### The bounded log (claim C8) -/

/-- `addLog` folded over a whole sequence of log-worthy events. -/
def addLogs (logs : List String) (msgs : List String) : List String :=
  msgs.foldl addLog logs

theorem addLog_length_le {logs : List String} {m : String}
    (h : logs.length ≤ 500) : (addLog logs m).length ≤ 500 := by
  simp only [addLog]
  by_cases hc : 500 < (logs ++ [m]).length
  · rw [if_pos hc, List.length_drop]
    omega
  · rw [if_neg hc]
    simp only [List.length_append, List.length_singleton] at hc ⊢
    omega

theorem addLogs_eq_drop :
    ∀ msgs : List String, addLogs [] msgs = msgs.drop (msgs.length - 500) := by
  intro msgs
  induction msgs using List.reverseRecOn with
  | nil => rfl
  | append_singleton M m ih =>
    rw [addLogs, List.foldl_append, List.foldl_cons, List.foldl_nil]
    rw [show List.foldl addLog [] M = addLogs [] M from rfl, ih]
    by_cases hM : M.length ≤ 499
    · have h0 : M.length - 500 = 0 := by omega
      rw [h0, List.drop_zero]
      simp only [addLog]
      have hlen : ¬ 500 < (M ++ [m]).length := by
        simp only [List.length_append, List.length_singleton]
        omega
      rw [if_neg hlen]
      have h1 : (M ++ [m]).length - 500 = 0 := by
        simp only [List.length_append, List.length_singleton]
        omega
      rw [h1, List.drop_zero]
    · simp only [addLog]
      have hdlen : (M.drop (M.length - 500)).length = 500 := by
        rw [List.length_drop]; omega
      have hlen : 500 < (M.drop (M.length - 500) ++ [m]).length := by
        rw [List.length_append, hdlen]
        simp
      rw [if_pos hlen]
      have h2 : (M.drop (M.length - 500) ++ [m]).length - 500 = 1 := by
        rw [List.length_append, hdlen]
        simp only [List.length_singleton]
      rw [h2, List.drop_append_eq_append_drop, List.drop_drop, hdlen]
      have h5 : M.length - 500 + 1 = M.length - 499 := by omega
      have h6 : (1 : Nat) - 500 = 0 := by omega
      rw [h5, h6, List.drop_zero]
      have h4 : (M ++ [m]).length - 500 = M.length - 499 := by
        simp only [List.length_append, List.length_singleton]
        omega
      rw [h4, List.drop_append_eq_append_drop]
      have h7 : M.length - 499 - M.length = 0 := by omega
      rw [h7, List.drop_zero]

/-- Claim C8: the run log is bounded by the 500-entry cap — each append
to a capped list stays capped, a run's whole log is always the suffix of
the most recent 500 messages in emission order, and after 10,000
log-worthy events exactly the most recent 500 are retained. -/
theorem c8_bounded_log :
    (∀ (logs : List String) (m : String),
      logs.length ≤ 500 → (addLog logs m).length ≤ 500) ∧
    (∀ msgs : List String,
      addLogs [] msgs = msgs.drop (msgs.length - 500)) ∧
    (∀ msgs : List String, msgs.length = 10000 →
      addLogs [] msgs = msgs.drop 9500 ∧ (addLogs [] msgs).length = 500) := by
  refine ⟨fun logs m h => addLog_length_le h, addLogs_eq_drop, ?_⟩
  intro msgs hlen
  constructor
  · rw [addLogs_eq_drop, hlen]
  · rw [addLogs_eq_drop, List.length_drop, hlen]

/-- Witness for `c8_bounded_log`: one append to a short log, and a run
of 10,000 identical events. -/
theorem c8_bounded_log_witness :
    (["a"] : List String).length ≤ 500 ∧ (addLog ["a"] "b").length ≤ 500 ∧
    (List.replicate 10000 "event" : List String).length = 10000 ∧
    addLogs [] (List.replicate 10000 "event") =
      (List.replicate 10000 "event").drop 9500 :=
  ⟨by decide, c8_bounded_log.1 ["a"] "b" (by decide),
   by rw [List.length_replicate],
   (c8_bounded_log.2.2 (List.replicate 10000 "event")
     (by rw [List.length_replicate])).1⟩

/-! ### Skipped anonymity checking (claim C9) -/

theorem checkProxy_skip (opts : CheckerOptions) (myIp : String)
    (p : ProxyToCheck) (pr : ProbeResult) (ar : AnonProbeResult)
    (h : opts.checkAnonymity = false ∨ myIp = "") :
    (checkProxy opts myIp p pr ar).2 = false ∧
    ((checkProxy opts myIp p pr ar).1.status = "working" →
      (checkProxy opts myIp p pr ar).1.anonymity = some "unknown") := by
  have hca : (opts.checkAnonymity && myIp != "") = false := by
    rcases h with h | h
    · rw [h]; rfl
    · rw [h]; simp
  cases pr with
  | err =>
    exact ⟨rfl, fun hw =>
      absurd (show ("dead" : String) = "working" from hw) (by decide)⟩
  | ok st t =>
    simp only [checkProxy]
    by_cases hr : 200 ≤ st ∧ st < 400
    · rw [if_pos hr, if_neg (by simp [hca])]
      exact ⟨rfl, fun _ => rfl⟩
    · rw [if_neg hr]
      exact ⟨rfl, fun hw =>
        absurd (show ("dead" : String) = "working" from hw) (by decide)⟩

theorem completeStep_anonProbes (opts : CheckerOptions) (s : RunState)
    (p : ProxyToCheck) (pr : ProbeResult) (ar : AnonProbeResult) :
    (completeStep opts s p pr ar).anonProbes =
      s.anonProbes + (if (checkProxy opts s.myIp p pr ar).2 then 1 else 0) := by
  by_cases hcond : ((checkProxy opts s.myIp p pr ar).1.status == "dead" &&
      opts.deleteDead) = true <;>
    simp [completeStep, stAddLog, emitProgress, hcond]

/-- The invariant of a run with no usable self-address: anonymity
checking stays off, no anonymity probe has been issued, and every
working outcome carries the `unknown` grade. -/
def anonInv (opts : CheckerOptions) (s : RunState) : Prop :=
  (opts.checkAnonymity = false ∨ s.myIp = "") ∧
  s.anonProbes = 0 ∧
  (∀ r ∈ s.results, r.status = "working" → r.anonymity = some "unknown")

theorem anonInv_step {opts : CheckerOptions} {s s' : RunState}
    (h : RunStep opts s s') (hi : anonInv opts s) : anonInv opts s' := by
  obtain ⟨i1, i2, i3⟩ := hi
  cases h with
  | pop hq hs =>
    cases hqe : s.queue with
    | nil => exact absurd hqe hq
    | cons p rest =>
      obtain ⟨_, _, _, _, em, _, _, _, _, er, _, _, _, ea⟩ :=
        popStep_fields hqe
      exact ⟨by rw [em]; exact i1, ea.trans i2, by rw [er]; exact i3⟩
  | complete p pr ar hp =>
    obtain ⟨_, _, _, em, _, _, _, e8, _, _⟩ := completeStep_fields opts s p pr ar
    have ha := completeStep_anonProbes opts s p pr ar
    have hskip := checkProxy_skip opts s.myIp p pr ar i1
    refine ⟨by rw [em]; exact i1, ?_, ?_⟩
    · simp [ha, hskip.1, i2]
    · intro r hr hw
      rw [e8] at hr
      rcases List.mem_append.mp hr with h1 | h1
      · exact i3 r h1 hw
      · rw [List.mem_singleton.mp h1] at hw ⊢
        exact hskip.2 hw
  | stop =>
    obtain ⟨_, _, _, _, em, _, _, _, _, er, _, _, _, ea⟩ := stopStep_fields s
    exact ⟨by rw [em]; exact i1, ea.trans i2, by rw [er]; exact i3⟩

theorem anonInv_reaches {opts : CheckerOptions} {a s : RunState}
    (h : Reaches opts a s) (hi : anonInv opts a) : anonInv opts s := by
  induction h with
  | refl => exact hi
  | tail hab hbc ih => exact anonInv_step hbc ih

/-- Claim C9: if the once-per-run self-address resolution fails, or
anonymity checking is disabled, no anonymity probe is issued during the
whole run and every working outcome receives the `unknown` grade. -/
theorem c9_anonymity_skipped :
    ∀ (opts : CheckerOptions) (proxies : List ProxyToCheck)
      (ipProbe : Option String) (s : RunState),
    opts.checkAnonymity = false ∨ ipProbe = none →
    Reaches opts (initRun opts proxies ipProbe) s →
    s.anonProbes = 0 ∧
    (∀ r ∈ s.results, r.status = "working" →
      r.anonymity = some "unknown") := by
  intro opts proxies ipProbe s hfail h
  have hinit : anonInv opts (initRun opts proxies ipProbe) := by
    refine ⟨?_, rfl, fun r hr => absurd hr (List.not_mem_nil r)⟩
    rcases hfail with hf | hf
    · exact Or.inl hf
    · right
      subst hf
      show (if opts.checkAnonymity then detectMyIp none else "") = ""
      split <;> rfl
  obtain ⟨_, j2, j3⟩ := anonInv_reaches h hinit
  exact ⟨j2, j3⟩

/-- Witness for `c9_anonymity_skipped`: the completed sample run, whose
options disable anonymity checking, ends with a working outcome graded
`unknown` and zero anonymity probes. -/
theorem c9_anonymity_skipped_witness :
    sampleDone.anonProbes = 0 ∧
    (∀ r ∈ sampleDone.results, r.status = "working" →
      r.anonymity = some "unknown") :=
  c9_anonymity_skipped sampleOpts [sampleProxy] none sampleDone (Or.inl rfl)
    sample_trace

/-- Claim C10: every emitted snapshot computes its percent field with a
guard against division by zero — for `total = 0` the percent is 0,
otherwise it is `round(100 * checked / total)` (here
`(200 * checked + total) / (2 * total)` in exact integer arithmetic) —
so a run over an empty endpoint list emits well-formed snapshots, and
for `checked ≤ total` the percent never exceeds 100. -/
theorem c10_percent_guard :
    (∀ c : Nat, percentOf c 0 = 0) ∧
    (∀ c t : Nat, 0 < t → percentOf c t = (200 * c + t) / (2 * t)) ∧
    (∀ c t : Nat, c ≤ t → percentOf c t ≤ 100) ∧
    (∀ (s : RunState) (last : Option CheckResult),
      (emitProgress s last).events = s.events ++ [snapshotOf s last] ∧
      (snapshotOf s last).percent = percentOf s.checked s.total) := by
  refine ⟨fun c => rfl, fun c t ht => by rw [percentOf, if_pos ht], ?_,
    fun s last => ⟨rfl, rfl⟩⟩
  intro c t hct
  by_cases ht : 0 < t
  · rw [percentOf, if_pos ht]
    have h2t : 0 < 2 * t := by omega
    have hlt : (200 * c + t) / (2 * t) < 101 := by
      rw [Nat.div_lt_iff_lt_mul h2t]
      omega
    omega
  · have ht0 : t = 0 := by omega
    subst ht0
    rw [percentOf, if_neg (by omega)]
    omega

/-- Witness for `c10_percent_guard`: the empty-batch guard and a
half-full run. -/
theorem c10_percent_guard_witness :
    percentOf 3 0 = 0 ∧ (1 : Nat) ≤ 2 ∧ percentOf 1 2 ≤ 100 :=
  ⟨c10_percent_guard.1 3, by decide, c10_percent_guard.2.2.1 1 2 (by decide)⟩
